import Mathlib

/-!
Shallow embedding of the DDPM diffusion core of `src/models/diffusion/ddpm.py`.

The tensor operations of the source are elementwise with per-batch-element
scalar coefficients (the `extract` gather broadcasts one coefficient over the
trailing dimensions), so samples are modelled per element as scalars and a
batched timestep tensor as a single natural-number timestep.  Floating point
is modelled by exact arithmetic in a linear ordered field `α`; the theorems
instantiate `α := ℝ`.  The transcendental primitives `torch.sqrt`,
`torch.log` and `torch.exp` are passed in as a parameter record so every
definition stays computable; the theorems instantiate them with `Real.sqrt`,
`Real.log` and `Real.exp`.
-/

namespace DDPMSpec

/-- The primitive elementwise functions used by the schedule and the sampler
(`torch.sqrt`, `torch.log`, `torch.exp`). -/
structure Prims (α : Type) where
  sqrt : α → α
  log : α → α
  exp : α → α

/-- The ways `setup_precomputed_const` can raise in Python: the `assert` on
`alpha_bar_shifted.shape` (line 36), the out-of-bounds read
`self.post_variance[1]` (line 56), and the dictionary lookup
`{...}[self.var_type]` (line 79). -/
inductive BuildError where
  | assertError
  | indexError
  | keyError
deriving DecidableEq

variable {α : Type} [LinearOrderedField α]

/-- `torch.linspace(beta_1, beta_2, steps=T)` (ddpm.py line 29):
entry `i` is `beta_1 + i * (beta_2 - beta_1) / (T - 1)`; for `T = 1` the
division by zero yields `0` in Lean, matching torch's single-point
`[beta_1]`. -/
def betasList (b1 b2 : α) (T : ℕ) : List α :=
  List.ofFn fun i : Fin T => b1 + (i : α) * (b2 - b1) / ((T : α) - 1)

/-- `self.alphas = 1 - self.betas` (line 30). -/
def alphasList (b1 b2 : α) (T : ℕ) : List α :=
  (betasList b1 b2 T).map fun b => 1 - b

/-- Running product with accumulator, the recursion behind `torch.cumprod`. -/
def cumprodAux (acc : α) : List α → List α
  | [] => []
  | a :: as => (acc * a) :: cumprodAux (acc * a) as

/-- `torch.cumprod(·, dim=0)` (line 31). -/
def cumprod (l : List α) : List α := cumprodAux 1 l

/-- `self.alpha_bar = torch.cumprod(self.alphas, dim=0)` (line 31). -/
def alphaBarList (b1 b2 : α) (T : ℕ) : List α :=
  cumprod (alphasList b1 b2 T)

/-- `self.alpha_bar_shifted = torch.cat([[1.0], self.alpha_bar[:-1]])`
(lines 32-34). -/
def alphaBarShiftedList (b1 b2 : α) (T : ℕ) : List α :=
  1 :: (alphaBarList b1 b2 T).dropLast

/-- `self.post_variance = self.betas * (1 - self.alpha_bar_shifted) /
(1 - self.alpha_bar)` (lines 49-51), elementwise. -/
def postVarianceList (b1 b2 : α) (T : ℕ) : List α :=
  List.zipWith (· / ·)
    (List.zipWith (· * ·) (betasList b1 b2 T)
      ((alphaBarShiftedList b1 b2 T).map fun s => 1 - s))
    ((alphaBarList b1 b2 T).map fun a => 1 - a)

/-- The value `self.post_variance[1]` read on lines 56 and 69 (out of range
when `T < 2`; here totalized with default `0` for use in statements). -/
def postVar1 (b1 b2 : α) (T : ℕ) : α :=
  (postVarianceList b1 b2 T).getD 1 0

/-- `self.post_log_variance_clipped = log(cat([post_variance[1]],
post_variance[1:]))` (lines 53-60): index 0 is replaced by index 1's value
before taking logs. -/
def postLogVarianceClippedList (p : Prims α) (b1 b2 : α) (T : ℕ) : List α :=
  (postVar1 b1 b2 T :: (postVarianceList b1 b2 T).tail).map p.log

/-- The `fixedlarge` log-variance `log(cat([post_variance[1]], betas[1:]))`
(lines 66-73). -/
def fixedLargeLogVarianceList (p : Prims α) (b1 b2 : α) (T : ℕ) : List α :=
  (postVar1 b1 b2 T :: (betasList b1 b2 T).tail).map p.log

/-- `self.sqrt_alpha_bar = torch.sqrt(self.alpha_bar)` (line 43). -/
def sqrtAlphaBarList (p : Prims α) (b1 b2 : α) (T : ℕ) : List α :=
  (alphaBarList b1 b2 T).map p.sqrt

/-- `self.minus_sqrt_alpha_bar = torch.sqrt(1.0 - self.alpha_bar)` (line 44). -/
def minusSqrtAlphaBarList (p : Prims α) (b1 b2 : α) (T : ℕ) : List α :=
  (alphaBarList b1 b2 T).map fun a => p.sqrt (1 - a)

/-- `self.sqrt_recip_alphas_cumprod = torch.sqrt(1.0 / self.alpha_bar)`
(line 45). -/
def sqrtRecipAlphasCumprodList (p : Prims α) (b1 b2 : α) (T : ℕ) : List α :=
  (alphaBarList b1 b2 T).map fun a => p.sqrt (1 / a)

/-- `self.sqrt_recipm1_alphas_cumprod = torch.sqrt(1.0 / self.alpha_bar - 1)`
(line 46). -/
def sqrtRecipM1AlphasCumprodList (p : Prims α) (b1 b2 : α) (T : ℕ) : List α :=
  (alphaBarList b1 b2 T).map fun a => p.sqrt (1 / a - 1)

/-- `self.post_coeff_1 = self.betas * torch.sqrt(self.alpha_bar_shifted) /
(1.0 - self.alpha_bar)` (lines 82-84). -/
def postCoeff1List (p : Prims α) (b1 b2 : α) (T : ℕ) : List α :=
  List.zipWith (· / ·)
    (List.zipWith (· * ·) (betasList b1 b2 T)
      ((alphaBarShiftedList b1 b2 T).map p.sqrt))
    ((alphaBarList b1 b2 T).map fun a => 1 - a)

/-- `self.post_coeff_2 = torch.sqrt(self.alphas) * (1 - self.alpha_bar_shifted)
/ (1 - self.alpha_bar)` (lines 85-89). -/
def postCoeff2List (p : Prims α) (b1 b2 : α) (T : ℕ) : List α :=
  List.zipWith (· / ·)
    (List.zipWith (· * ·) ((alphasList b1 b2 T).map p.sqrt)
      ((alphaBarShiftedList b1 b2 T).map fun s => 1 - s))
    ((alphaBarList b1 b2 T).map fun a => 1 - a)

/-- The precomputed constants that `setup_precomputed_const` stores on the
module (lines 29-89), with the source's attribute names. -/
structure Schedule (α : Type) where
  betas : List α
  alphas : List α
  alpha_bar : List α
  alpha_bar_shifted : List α
  sqrt_alpha_bar : List α
  minus_sqrt_alpha_bar : List α
  sqrt_recip_alphas_cumprod : List α
  sqrt_recipm1_alphas_cumprod : List α
  post_variance : List α
  post_log_variance_clipped : List α
  p_variance : List α
  p_log_variance : List α
  post_coeff_1 : List α
  post_coeff_2 : List α

/-- The record a successful `setup_precomputed_const` run produces: the
variant pair is selected by `var_type` (lines 61-79), `"fixedlarge"` picking
`(betas, fixedlarge log-variances)` and otherwise the `"fixedsmall"` pair
(the builder below rejects every other string before reaching here). -/
def scheduleOf (p : Prims α) (b1 b2 : α) (T : ℕ) (var_type : String) :
    Schedule α :=
  { betas := betasList b1 b2 T
    alphas := alphasList b1 b2 T
    alpha_bar := alphaBarList b1 b2 T
    alpha_bar_shifted := alphaBarShiftedList b1 b2 T
    sqrt_alpha_bar := sqrtAlphaBarList p b1 b2 T
    minus_sqrt_alpha_bar := minusSqrtAlphaBarList p b1 b2 T
    sqrt_recip_alphas_cumprod := sqrtRecipAlphasCumprodList p b1 b2 T
    sqrt_recipm1_alphas_cumprod := sqrtRecipM1AlphasCumprodList p b1 b2 T
    post_variance := postVarianceList b1 b2 T
    post_log_variance_clipped := postLogVarianceClippedList p b1 b2 T
    p_variance :=
      if var_type = "fixedlarge" then betasList b1 b2 T
      else postVarianceList b1 b2 T
    p_log_variance :=
      if var_type = "fixedlarge" then fixedLargeLogVarianceList p b1 b2 T
      else postLogVarianceClippedList p b1 b2 T
    post_coeff_1 := postCoeff1List p b1 b2 T
    post_coeff_2 := postCoeff2List p b1 b2 T }

/-- `DDPM.setup_precomputed_const` (lines 27-89) with its Python failure
modes made explicit, in source order: the shape assert on
`alpha_bar_shifted` (line 36), the `post_variance[1]` read (line 56), and
the `{"fixedlarge": …, "fixedsmall": …}[self.var_type]` lookup (line 79). -/
def setup_precomputed_const (p : Prims α) (b1 b2 : α) (T : ℕ)
    (var_type : String) : Except BuildError (Schedule α) :=
  if (alphaBarShiftedList b1 b2 T).length = T then
    match (postVarianceList b1 b2 T).get? 1 with
    | none => .error .indexError
    | some _ =>
      if var_type = "fixedlarge" ∨ var_type = "fixedsmall" then
        .ok (scheduleOf p b1 b2 T var_type)
      else .error .keyError
  else .error .assertError

/-- The gather-and-broadcast helper `extract(a, t, x_shape)` (lines 7-10),
per batch element: the coefficient table read at index `t`.  Precondition of
every use below: `t < a.length` (torch's `gather` raises otherwise). -/
def extract (a : List α) (t : ℕ) : α := a.getD t 0

/-- The decoder callable: `(x, t, low_res) -> predicted noise`, per element. -/
def Decoder (α : Type) : Type := α → ℕ → Option α → α

/-- `DDPM.compute_noisy_input` (lines 165-170):
`x_start * sqrt_alpha_bar[t] + eps * minus_sqrt_alpha_bar[t]`. -/
def compute_noisy_input (sch : Schedule α) (x_start eps : α) (t : ℕ) : α :=
  x_start * extract sch.sqrt_alpha_bar t + eps * extract sch.minus_sqrt_alpha_bar t

/-- `DDPM._predict_xstart_from_eps` (lines 91-96):
`sqrt_recip_alphas_cumprod[t] * x_t - sqrt_recipm1_alphas_cumprod[t] * eps`. -/
def predict_xstart_from_eps (sch : Schedule α) (x_t : α) (t : ℕ) (eps : α) : α :=
  extract sch.sqrt_recip_alphas_cumprod t * x_t -
    extract sch.sqrt_recipm1_alphas_cumprod t * eps

/-- `x_recons.clamp_(-1.0, 1.0)` (line 114), elementwise. -/
def clampUnit (x : α) : α := max (-1) (min x 1)

/-- `DDPM.get_posterior_mean_covariance` (lines 98-125): reconstruct `x_0`
from the decoder's noise prediction, clip it when `clip_denoised` is set,
and return `(post_mean, post_variance, post_log_variance)`. -/
def get_posterior_mean_covariance (sch : Schedule α) (dec : Decoder α)
    (x_t : α) (t : ℕ) (clip_denoised : Bool) (cond : Option α) : α × α × α :=
  let eps := dec x_t t cond
  let x_recons := predict_xstart_from_eps sch x_t t eps
  let x_recons := if clip_denoised then clampUnit x_recons else x_recons
  let post_mean :=
    extract sch.post_coeff_1 t * x_recons + extract sch.post_coeff_2 t * x_t
  (post_mean, extract sch.p_variance t, extract sch.p_log_variance t)

/-- `torch.tensor(t != 0).float()` (lines 151-155): `0` at the terminal
timestep, `1` otherwise. -/
def nonzeroMask (t : ℕ) : α := if t = 0 then 0 else 1

/-- One iteration of the reverse loop (lines 141-158): the Langevin update
`x = post_mean + nonzero_mask * exp(0.5 * post_log_variance) * z`, with
`clip_denoised` left at its default `True`. -/
def langevinStep (p : Prims α) (sch : Schedule α) (dec : Decoder α)
    (cond : Option α) (x : α) (t : ℕ) (z : α) : α :=
  let pm := get_posterior_mean_covariance sch dec x t true cond
  pm.1 + nonzeroMask t * p.exp (1 / 2 * pm.2.2) * z

/-- The body of the `for idx, t in enumerate(reversed(range(0, num_steps)))`
loop (lines 140-162), over the remaining timestep list: returns the
checkpoint dictionary (in insertion order, keys `str(idx + 1)`) together
with the number of decoder evaluations performed (one per iteration, inside
`get_posterior_mean_covariance`).  `z idx` is the fresh noise
`torch.randn_like(x_t)` drawn at iteration `idx` (line 141). -/
def sampleLoop (p : Prims α) (sch : Schedule α) (dec : Decoder α)
    (cond : Option α) (z : ℕ → α) (checkpoints : List ℕ) :
    List ℕ → ℕ → α → List (String × α) × ℕ
  | [], _, _ => ([], 0)
  | t :: ts, idx, x =>
    let x1 := langevinStep p sch dec cond x t (z idx)
    let rest := sampleLoop p sch dec cond z checkpoints ts (idx + 1) x1
    (if idx + 1 ∈ checkpoints then (toString (idx + 1), x1) :: rest.1 else rest.1,
      rest.2 + 1)

/-- `reversed(range(0, num_steps))` (line 140). -/
def sampleTimesteps (num_steps : ℕ) : List ℕ := (List.range num_steps).reverse

/-- `DDPM.sample` (lines 127-163) after the one-time constant setup, with
the noise source made explicit as the sequence `z` of per-iteration draws:
`num_steps` defaults to `self.T`, an empty `checkpoints` list defaults to
`[num_steps]`, and the loop walks `t` from `num_steps - 1` down to `0`. -/
def sample (p : Prims α) (sch : Schedule α) (dec : Decoder α) (cond : Option α)
    (T : ℕ) (z : ℕ → α) (x_t : α) (n_steps : Option ℕ) (checkpoints : List ℕ) :
    List (String × α) :=
  let num_steps := n_steps.getD T
  let cps := if checkpoints = [] then [num_steps] else checkpoints
  (sampleLoop p sch dec cond z cps (sampleTimesteps num_steps) 0 x_t).1

/-- The number of decoder evaluations the same `sample` call performs. -/
def sampleDecoderCalls (p : Prims α) (sch : Schedule α) (dec : Decoder α)
    (cond : Option α) (T : ℕ) (z : ℕ → α) (x_t : α) (n_steps : Option ℕ)
    (checkpoints : List ℕ) : ℕ :=
  let num_steps := n_steps.getD T
  let cps := if checkpoints = [] then [num_steps] else checkpoints
  (sampleLoop p sch dec cond z cps (sampleTimesteps num_steps) 0 x_t).2

/-- The chain state along a timestep list: the current `x` after folding the
Langevin update over the list, drawing noise `z idx` at each step. -/
def runChain (p : Prims α) (sch : Schedule α) (dec : Decoder α)
    (cond : Option α) (z : ℕ → α) : List ℕ → ℕ → α → α
  | [], _, x => x
  | t :: ts, idx, x =>
    runChain p sch dec cond z ts (idx + 1) (langevinStep p sch dec cond x t (z idx))

/-- The chain state after `k` of the `num_steps` iterations of `sample`. -/
def chainState (p : Prims α) (sch : Schedule α) (dec : Decoder α)
    (cond : Option α) (z : ℕ → α) (num_steps k : ℕ) (x : α) : α :=
  runChain p sch dec cond z ((sampleTimesteps num_steps).take k) 0 x

/-- A compute context (torch device) identifier. -/
abbrev Device := ℕ

/-- The instance state relevant to constant setup: the boolean
`self.setup_consts` flag (line 25) and the device the constants were built
on (the `dev` passed to `setup_precomputed_const`). -/
structure ConstsState where
  setup_consts : Bool
  consts_device : Option Device

/-- The state after `__init__` (line 25): `self.setup_consts = False`. -/
def initState : ConstsState := ⟨false, none⟩

/-- The guard both `sample` (lines 133-136) and `forward` (lines 172-175)
run before touching the constants: build them on the call's device only when
the flag is unset, then set the flag. -/
def ensureSetup (dev : Device) (st : ConstsState) : ConstsState :=
  if st.setup_consts then st else ⟨true, some dev⟩

/-! ### Concrete instances used in witnesses and counterexamples -/

/-- Identity primitives over `ℚ`: a computable instantiation for claims whose
truth does not depend on the values of `sqrt`, `log` and `exp`. -/
def idPrims : Prims ℚ := ⟨id, id, id⟩

/-- A concrete valid schedule over `ℚ` (`beta_1 = 1/10`, `beta_2 = 1/5`,
`T = 2`, `var_type = "fixedlarge"`). -/
def schQ : Schedule ℚ := scheduleOf idPrims (1 / 10) (1 / 5) 2 "fixedlarge"

/-- A decoder stub that always predicts zero residual. -/
def zeroDecoder : Decoder ℚ := fun _ _ _ => 0

/-- The all-zero noise sequence. -/
def zeroNoise : ℕ → ℚ := fun _ => 0

/-- A noise sequence equal to `zeroNoise` on indices below 2 only. -/
def stepNoise : ℕ → ℚ := fun i => if i < 2 then 0 else 1

/-! ### Basic facts about the schedule sequences -/

theorem cumprodAux_length (acc : α) (l : List α) :
    (cumprodAux acc l).length = l.length := by
  induction l generalizing acc with
  | nil => rfl
  | cons a as ih => simp [cumprodAux, ih]

theorem cumprod_length (l : List α) : (cumprod l).length = l.length :=
  cumprodAux_length 1 l

theorem cumprodAux_getElem (l : List α) :
    ∀ (acc : α) (i : ℕ) (h : i < (cumprodAux acc l).length),
      (cumprodAux acc l)[i] = acc * (l.take (i + 1)).prod := by
  induction l with
  | nil => intro acc i h; simp [cumprodAux] at h
  | cons a as ih =>
    intro acc i h
    match i with
    | 0 => simp [cumprodAux]
    | n + 1 =>
      have h' : n < (cumprodAux (acc * a) as).length := by
        simpa [cumprodAux] using h
      calc (cumprodAux acc (a :: as))[n + 1] = (cumprodAux (acc * a) as)[n] := rfl
        _ = acc * a * (as.take (n + 1)).prod := ih (acc * a) n h'
        _ = acc * ((a :: as).take (n + 1 + 1)).prod := by
            simp [List.take_cons, mul_assoc]

theorem cumprod_getElem (l : List α) (i : ℕ) (h : i < (cumprod l).length) :
    (cumprod l)[i] = (l.take (i + 1)).prod := by
  simp only [cumprod] at h ⊢
  rw [cumprodAux_getElem l 1 i h, one_mul]

theorem betasList_length (b1 b2 : α) (T : ℕ) :
    (betasList b1 b2 T).length = T := by
  simp [betasList]

theorem alphasList_length (b1 b2 : α) (T : ℕ) :
    (alphasList b1 b2 T).length = T := by
  simp [alphasList, betasList_length]

theorem alphaBarList_length (b1 b2 : α) (T : ℕ) :
    (alphaBarList b1 b2 T).length = T := by
  rw [alphaBarList, cumprod_length, alphasList_length]

theorem alphaBarShiftedList_length (b1 b2 : α) (T : ℕ) :
    (alphaBarShiftedList b1 b2 T).length = T - 1 + 1 := by
  simp [alphaBarShiftedList, alphaBarList_length]

theorem alphaBarShiftedList_length_of_pos (b1 b2 : α) {T : ℕ} (hT : 1 ≤ T) :
    (alphaBarShiftedList b1 b2 T).length = T := by
  rw [alphaBarShiftedList_length]; omega

theorem postVarianceList_length (b1 b2 : α) {T : ℕ} (hT : 1 ≤ T) :
    (postVarianceList b1 b2 T).length = T := by
  simp [postVarianceList, betasList_length, alphaBarList_length,
    alphaBarShiftedList_length]
  omega

theorem betasList_getElem (b1 b2 : α) (T : ℕ) (i : ℕ)
    (h : i < (betasList b1 b2 T).length) :
    (betasList b1 b2 T)[i] = b1 + (i : α) * (b2 - b1) / ((T : α) - 1) := by
  simp [betasList]

theorem alphasList_getElem (b1 b2 : α) (T : ℕ) (i : ℕ)
    (h : i < (alphasList b1 b2 T).length) :
    (alphasList b1 b2 T)[i] =
      1 - (b1 + (i : α) * (b2 - b1) / ((T : α) - 1)) := by
  simp [alphasList, betasList]

theorem alphaBarList_getElem (b1 b2 : α) (T : ℕ) (i : ℕ)
    (h : i < (alphaBarList b1 b2 T).length) :
    (alphaBarList b1 b2 T)[i] = ((alphasList b1 b2 T).take (i + 1)).prod := by
  simp only [alphaBarList] at h ⊢
  exact cumprod_getElem _ i h

/-- Bounds on the entries of `betasList` for valid hyperparameters (`T = 1`
has the single entry `beta_1` because the division by zero yields `0`). -/
theorem betasList_getElem_bounds {b1 b2 : α} (_h1 : 0 < b1) (h2 : b1 ≤ b2)
    {T : ℕ} (i : ℕ) (hi : i < T) (h : i < (betasList b1 b2 T).length) :
    b1 ≤ (betasList b1 b2 T)[i] ∧ (betasList b1 b2 T)[i] ≤ b2 := by
  rw [betasList_getElem]
  have hd : (0 : α) ≤ b2 - b1 := by linarith
  have hden : (0 : α) ≤ (T : α) - 1 := by
    have : (1 : α) ≤ (T : α) := by exact_mod_cast Nat.one_le_iff_ne_zero.mpr (by omega)
    linarith
  have hterm0 : (0 : α) ≤ (i : α) * (b2 - b1) / ((T : α) - 1) :=
    div_nonneg (mul_nonneg (by positivity) hd) hden
  constructor
  · linarith
  · have hterm1 : (i : α) * (b2 - b1) / ((T : α) - 1) ≤ b2 - b1 := by
      rcases eq_or_lt_of_le hden with hz | hpos
      · rw [← hz, div_zero]; exact hd
      · rw [div_le_iff₀ hpos]
        have hi' : (i : α) ≤ (T : α) - 1 := by
          have : (i : α) + 1 ≤ (T : α) := by exact_mod_cast hi
          linarith
        calc (i : α) * (b2 - b1) ≤ ((T : α) - 1) * (b2 - b1) :=
              mul_le_mul_of_nonneg_right hi' hd
          _ = (b2 - b1) * ((T : α) - 1) := mul_comm _ _
    linarith

/-- Entries of `alphasList` lie in `(0, 1]` for valid hyperparameters. -/
theorem alphasList_mem_bounds {b1 b2 : α} (h1 : 0 < b1) (h2 : b1 ≤ b2)
    (h3 : b2 < 1) (T : ℕ) :
    ∀ a ∈ alphasList b1 b2 T, 0 < a ∧ a ≤ 1 := by
  intro a ha
  rw [alphasList, List.mem_map] at ha
  obtain ⟨b, hb, rfl⟩ := ha
  obtain ⟨i, h, rfl⟩ := List.mem_iff_getElem.mp hb
  have hlen : i < T := by
    have := h; rwa [betasList_length] at this
  have := betasList_getElem_bounds h1 h2 i hlen h
  exact ⟨by linarith [this.2], by linarith [this.1]⟩

theorem list_prod_le_one {l : List α} (h : ∀ a ∈ l, 0 ≤ a ∧ a ≤ 1) :
    l.prod ≤ 1 := by
  induction l with
  | nil => simp
  | cons a as ih =>
    rw [List.prod_cons]
    have ha := h a (List.mem_cons_self a as)
    have has : as.prod ≤ 1 := ih fun x hx => h x (List.mem_cons_of_mem a hx)
    have hasn : (0 : α) ≤ as.prod :=
      List.prod_nonneg fun x hx => (h x (List.mem_cons_of_mem a hx)).1
    calc a * as.prod ≤ a * 1 := mul_le_mul_of_nonneg_left has ha.1
      _ = a := mul_one a
      _ ≤ 1 := ha.2

/-- Entries of `alphaBarList` lie in `(0, 1]` for valid hyperparameters. -/
theorem alphaBarList_getElem_bounds {b1 b2 : α} (h1 : 0 < b1) (h2 : b1 ≤ b2)
    (h3 : b2 < 1) {T : ℕ} (i : ℕ) (h : i < (alphaBarList b1 b2 T).length) :
    0 < (alphaBarList b1 b2 T)[i] ∧ (alphaBarList b1 b2 T)[i] ≤ 1 := by
  rw [alphaBarList_getElem]
  have hmem : ∀ a ∈ (alphasList b1 b2 T).take (i + 1), 0 < a ∧ a ≤ 1 :=
    fun a ha => alphasList_mem_bounds h1 h2 h3 T a (List.mem_of_mem_take ha)
  constructor
  · exact List.prod_pos fun a ha => (hmem a ha).1
  · exact list_prod_le_one fun a ha => ⟨(hmem a ha).1.le, (hmem a ha).2⟩

/-- `alphaBarList` is non-increasing for valid hyperparameters. -/
theorem alphaBarList_antitone {b1 b2 : α} (h1 : 0 < b1) (h2 : b1 ≤ b2)
    (h3 : b2 < 1) {T : ℕ} {i j : ℕ} (hij : i ≤ j)
    (hj : j < (alphaBarList b1 b2 T).length)
    (hi : i < (alphaBarList b1 b2 T).length) :
    (alphaBarList b1 b2 T)[j] ≤ (alphaBarList b1 b2 T)[i] := by
  rw [alphaBarList_getElem _ _ _ _ hj, alphaBarList_getElem _ _ _ _ hi]
  have hsplit : (alphasList b1 b2 T).take (j + 1) =
      (alphasList b1 b2 T).take (i + 1) ++
        (((alphasList b1 b2 T).drop (i + 1)).take (j - i)) := by
    rw [← List.take_add]
    congr 1
    omega
  rw [hsplit, List.prod_append]
  have hbase : ∀ a ∈ (alphasList b1 b2 T).take (i + 1), 0 < a ∧ a ≤ 1 :=
    fun a ha => alphasList_mem_bounds h1 h2 h3 T a (List.mem_of_mem_take ha)
  have hmid : ∀ a ∈ ((alphasList b1 b2 T).drop (i + 1)).take (j - i),
      0 < a ∧ a ≤ 1 := fun a ha =>
    alphasList_mem_bounds h1 h2 h3 T a
      (List.mem_of_mem_drop (List.mem_of_mem_take ha))
  exact mul_le_of_le_one_right
    (List.prod_nonneg fun a ha => (hbase a ha).1.le)
    (list_prod_le_one fun a ha => ⟨(hmid a ha).1.le, (hmid a ha).2⟩)

/-- `betasList` is strictly increasing when `beta_1 < beta_2` and `T ≥ 2`. -/
theorem betasList_strictMono {b1 b2 : α} (h2 : b1 < b2) {T : ℕ} (hT : 2 ≤ T)
    {i j : ℕ} (hij : i < j) (hj : j < (betasList b1 b2 T).length)
    (hi : i < (betasList b1 b2 T).length) :
    (betasList b1 b2 T)[i] < (betasList b1 b2 T)[j] := by
  rw [betasList_getElem _ _ _ _ hi, betasList_getElem _ _ _ _ hj]
  have hden : (0 : α) < (T : α) - 1 := by
    have : (2 : α) ≤ (T : α) := by exact_mod_cast hT
    linarith
  have hnum : (i : α) * (b2 - b1) < (j : α) * (b2 - b1) := by
    have hij' : (i : α) < (j : α) := by exact_mod_cast hij
    exact mul_lt_mul_of_pos_right hij' (by linarith)
  have := (div_lt_div_iff_of_pos_right hden).mpr hnum
  linarith

/-! ### Outcomes of `setup_precomputed_const` -/

theorem setup_precomputed_const_T0 (p : Prims α) (b1 b2 : α) (vt : String) :
    setup_precomputed_const p b1 b2 0 vt = .error .assertError := by
  have h : (alphaBarShiftedList b1 b2 0).length = 1 := by
    rw [alphaBarShiftedList_length]
  unfold setup_precomputed_const
  rw [if_neg (by rw [h]; omega)]

theorem setup_precomputed_const_T1 (p : Prims α) (b1 b2 : α) (vt : String) :
    setup_precomputed_const p b1 b2 1 vt = .error .indexError := by
  have hlen : (alphaBarShiftedList b1 b2 1).length = 1 := by
    rw [alphaBarShiftedList_length]
  have hpv : (postVarianceList b1 b2 1).get? 1 = none := by
    rw [List.get?_eq_getElem?]
    exact List.getElem?_eq_none (by rw [postVarianceList_length b1 b2 (le_refl 1)])
  unfold setup_precomputed_const
  rw [if_pos hlen, hpv]

theorem setup_precomputed_const_ok (p : Prims α) (b1 b2 : α) {T : ℕ}
    (hT : 2 ≤ T) {vt : String}
    (hvt : vt = "fixedlarge" ∨ vt = "fixedsmall") :
    setup_precomputed_const p b1 b2 T vt = .ok (scheduleOf p b1 b2 T vt) := by
  have hlen := alphaBarShiftedList_length_of_pos (T := T) b1 b2 (by omega)
  have hpvlen : (postVarianceList b1 b2 T).length = T :=
    postVarianceList_length b1 b2 (by omega)
  have h1 : 1 < (postVarianceList b1 b2 T).length := by omega
  have hpv : (postVarianceList b1 b2 T).get? 1 =
      some ((postVarianceList b1 b2 T)[1]) := by
    rw [List.get?_eq_getElem?]
    exact List.getElem?_eq_getElem h1
  unfold setup_precomputed_const
  rw [if_pos hlen, hpv]
  simp [hvt]

theorem setup_precomputed_const_keyError (p : Prims α) (b1 b2 : α) {T : ℕ}
    (hT : 2 ≤ T) {vt : String}
    (hvt : ¬(vt = "fixedlarge" ∨ vt = "fixedsmall")) :
    setup_precomputed_const p b1 b2 T vt = .error .keyError := by
  have hlen := alphaBarShiftedList_length_of_pos (T := T) b1 b2 (by omega)
  have hpvlen : (postVarianceList b1 b2 T).length = T :=
    postVarianceList_length b1 b2 (by omega)
  have h1 : 1 < (postVarianceList b1 b2 T).length := by omega
  have hpv : (postVarianceList b1 b2 T).get? 1 =
      some ((postVarianceList b1 b2 T)[1]) := by
    rw [List.get?_eq_getElem?]
    exact List.getElem?_eq_getElem h1
  unfold setup_precomputed_const
  rw [if_pos hlen, hpv]
  simp [hvt]

/-! ### Facts about the sampling loop -/

theorem extract_map (f : α → α) (l : List α) (t : ℕ) (h : t < l.length) :
    extract (l.map f) t = f l[t] := by
  rw [extract, List.getD_eq_getElem _ _ (by simpa using h), List.getElem_map]

theorem sampleLoop_calls (p : Prims α) (sch : Schedule α) (dec : Decoder α)
    (cond : Option α) (z : ℕ → α) (cps : List ℕ) :
    ∀ (ts : List ℕ) (idx : ℕ) (x : α),
      (sampleLoop p sch dec cond z cps ts idx x).2 = ts.length := by
  intro ts
  induction ts with
  | nil => intro idx x; rfl
  | cons t ts ih => intro idx x; simp [sampleLoop, ih]

theorem sampleLoop_single (p : Prims α) (sch : Schedule α) (dec : Decoder α)
    (cond : Option α) (z : ℕ → α) :
    ∀ (ts : List ℕ) (idx n : ℕ) (x : α), idx + ts.length = n → ts ≠ [] →
      (sampleLoop p sch dec cond z [n] ts idx x).1 =
        [(toString n, runChain p sch dec cond z ts idx x)] := by
  intro ts
  induction ts with
  | nil => intro idx n x hl hne; exact absurd rfl hne
  | cons t ts ih =>
    intro idx n x hlen hne
    by_cases hts : ts = []
    · subst hts
      have hn : idx + 1 = n := by simpa using hlen
      subst hn
      simp [sampleLoop, runChain]
    · have hlen' : (idx + 1) + ts.length = n := by
        simp only [List.length_cons] at hlen; omega
      have hne2 : idx + 1 ≠ n := by
        have := List.length_pos.mpr hts
        omega
      have hrec := ih (idx + 1) n (langevinStep p sch dec cond x t (z idx))
        hlen' hts
      simp only [sampleLoop, List.mem_singleton, if_neg hne2]
      rw [hrec]
      rfl

theorem sampleLoop_mem_final (p : Prims α) (sch : Schedule α) (dec : Decoder α)
    (cond : Option α) (z : ℕ → α) (cps : List ℕ) :
    ∀ (ts : List ℕ) (idx : ℕ) (x : α), ts ≠ [] → idx + ts.length ∈ cps →
      (toString (idx + ts.length), runChain p sch dec cond z ts idx x) ∈
        (sampleLoop p sch dec cond z cps ts idx x).1 := by
  intro ts
  induction ts with
  | nil => intro idx x hne hmem; exact absurd rfl hne
  | cons t ts ih =>
    intro idx x hne hmem
    by_cases hts : ts = []
    · subst hts
      have hone : idx + ([t] : List ℕ).length = idx + 1 := rfl
      rw [hone] at hmem ⊢
      simp [sampleLoop, runChain, hmem]
    · have hidx : idx + (t :: ts).length = (idx + 1) + ts.length := by
        simp only [List.length_cons]; omega
      have hmem' : (idx + 1) + ts.length ∈ cps := by rwa [hidx] at hmem
      have h' := ih (idx + 1) (langevinStep p sch dec cond x t (z idx)) hts hmem'
      rw [hidx]
      have hrc : runChain p sch dec cond z (t :: ts) idx x =
          runChain p sch dec cond z ts (idx + 1)
            (langevinStep p sch dec cond x t (z idx)) := rfl
      rw [hrc]
      simp only [sampleLoop]
      split
      · exact List.mem_cons_of_mem _ h'
      · exact h'

theorem sampleLoop_congr_z (p : Prims α) (sch : Schedule α) (dec : Decoder α)
    (cond : Option α) (cps : List ℕ) (z1 z2 : ℕ → α) :
    ∀ (ts : List ℕ) (idx : ℕ) (x : α),
      (∀ i, idx ≤ i → i < idx + ts.length → z1 i = z2 i) →
      sampleLoop p sch dec cond z1 cps ts idx x =
        sampleLoop p sch dec cond z2 cps ts idx x := by
  intro ts
  induction ts with
  | nil => intro idx x h; rfl
  | cons t ts ih =>
    intro idx x h
    have hz : z1 idx = z2 idx :=
      h idx (le_refl idx) (by simp only [List.length_cons]; omega)
    have hrest := ih (idx + 1) (langevinStep p sch dec cond x t (z2 idx))
      (fun i h1 h2 => h i (by omega) (by simp only [List.length_cons]; omega))
    simp only [sampleLoop, hz, hrest]

/-! ### The claims -/

/-- C2: for every input and every decoder, `sample` with `n_steps = 1`
performs exactly one decoder evaluation, the noise mask at `t = 0` is `0`,
and the returned value is exactly the posterior mean (no injected noise);
more generally the update at the terminal step `t = 0` of any chain is
deterministically `post_mean`. -/
theorem claim_C2_terminal_step_deterministic (p : Prims α) (sch : Schedule α)
    (dec : Decoder α) (cond : Option α) (T : ℕ) (z : ℕ → α) (x : α) :
    sample p sch dec cond T z x (some 1) [] =
        [("1", (get_posterior_mean_covariance sch dec x 0 true cond).1)] ∧
      sampleDecoderCalls p sch dec cond T z x (some 1) [] = 1 ∧
      (nonzeroMask 0 : α) = 0 ∧
      ∀ x0 z0 : α, langevinStep p sch dec cond x0 0 z0 =
        (get_posterior_mean_covariance sch dec x0 0 true cond).1 := by
  have hkey : toString (1 : ℕ) = "1" := rfl
  refine ⟨?_, ?_, rfl, ?_⟩
  · simp [sample, sampleTimesteps, sampleLoop, langevinStep, nonzeroMask, hkey]
  · simp [sampleDecoderCalls, sampleLoop_calls, sampleTimesteps]
  · intro x0 z0
    simp [langevinStep, nonzeroMask]

/-- C10: `sample` with `n_steps = 0` never runs the loop body: the decoder
is evaluated zero times and the returned mapping is empty (even though the
defaulted checkpoint set is `[0]`); the call returns normally. -/
theorem claim_C10_zero_steps (p : Prims α) (sch : Schedule α) (dec : Decoder α)
    (cond : Option α) (T : ℕ) (z : ℕ → α) (x : α) :
    sample p sch dec cond T z x (some 0) [] = [] ∧
      sampleDecoderCalls p sch dec cond T z x (some 0) [] = 0 :=
  ⟨rfl, rfl⟩

/-- C3: `sample(x, checkpoints = [1, 5, 10], n_steps = 10)` returns exactly
the keys `"1"`, `"5"`, `"10"`, each bound to the chain state after that many
steps; and with no checkpoints supplied the set defaults to `[n_steps]`, so
exactly the final state is returned under key `n_steps` (for any positive
step count `n + 1`). -/
theorem claim_C3_checkpoint_correctness (p : Prims α) (sch : Schedule α)
    (dec : Decoder α) (cond : Option α) (T : ℕ) (z : ℕ → α) (x : α) :
    sample p sch dec cond T z x (some 10) [1, 5, 10] =
        [("1", chainState p sch dec cond z 10 1 x),
          ("5", chainState p sch dec cond z 10 5 x),
          ("10", chainState p sch dec cond z 10 10 x)] ∧
      ∀ n : ℕ, sample p sch dec cond T z x (some (n + 1)) [] =
        [(toString (n + 1), chainState p sch dec cond z (n + 1) (n + 1) x)] := by
  constructor
  · rfl
  · intro n
    have hlen : (sampleTimesteps (n + 1)).length = n + 1 := by
      simp [sampleTimesteps]
    have hne : sampleTimesteps (n + 1) ≠ [] := by
      intro hnil
      rw [hnil] at hlen
      simp at hlen
    have hsingle := sampleLoop_single p sch dec cond z
      (sampleTimesteps (n + 1)) 0 (n + 1) x (by omega) hne
    have htake : List.take (n + 1) (sampleTimesteps (n + 1)) =
        sampleTimesteps (n + 1) :=
      List.take_of_length_le (by omega)
    show (sampleLoop p sch dec cond z [n + 1] (sampleTimesteps (n + 1)) 0 x).1 =
      [(toString (n + 1),
        runChain p sch dec cond z (List.take (n + 1) (sampleTimesteps (n + 1))) 0 x)]
    rw [hsingle, htake]

/-- C7 counterexample: a call with the valid checkpoint set `[1]` and
`n_steps = 2` returns a mapping whose only key is `"1"`: the final sample
(step count 2) is NOT in the returned mapping, because line 161 records a
state only when `idx + 1` is in the checkpoint list. -/
theorem claim_C7_counterexample :
    (sample idPrims schQ zeroDecoder none 2 zeroNoise 0 (some 2) [1]).map
        Prod.fst = ["1"] ∧
      "2" ∉ (sample idPrims schQ zeroDecoder none 2 zeroNoise 0 (some 2)
        [1]).map Prod.fst := by
  have h : (sample idPrims schQ zeroDecoder none 2 zeroNoise 0 (some 2)
      [1]).map Prod.fst = ["1"] := rfl
  exact ⟨h, by rw [h]; decide⟩

/-- C7 amended: for every call with `n_steps = n + 1 ≥ 1`, the loop runs
exactly `n + 1` iterations (one decoder evaluation each), the last processed
timestep is `t = 0`, and the returned mapping contains the final sample
whenever `n_steps` is in the effective checkpoint set (always so for the
default); with a user-supplied checkpoint list lacking `n_steps` the final
sample is absent (see the counterexample). -/
theorem claim_C7_amended (p : Prims α) (sch : Schedule α) (dec : Decoder α)
    (cond : Option α) (T : ℕ) (z : ℕ → α) (x : α) (n : ℕ) (cps : List ℕ) :
    sampleDecoderCalls p sch dec cond T z x (some (n + 1)) cps = n + 1 ∧
      (sampleTimesteps (n + 1)).getLast? = some 0 ∧
      (n + 1 ∈ (if cps = [] then [n + 1] else cps) →
        (toString (n + 1), chainState p sch dec cond z (n + 1) (n + 1) x) ∈
          sample p sch dec cond T z x (some (n + 1)) cps) := by
  have hlen : (sampleTimesteps (n + 1)).length = n + 1 := by
    simp [sampleTimesteps]
  refine ⟨?_, ?_, ?_⟩
  · simp [sampleDecoderCalls, sampleLoop_calls, sampleTimesteps]
  · rw [sampleTimesteps, List.getLast?_reverse, List.head?_range]
    simp
  · intro hmem
    have hne : sampleTimesteps (n + 1) ≠ [] := by
      intro hnil
      rw [hnil] at hlen
      simp at hlen
    have hmem' : 0 + (sampleTimesteps (n + 1)).length ∈
        (if cps = [] then [n + 1] else cps) := by
      rw [hlen]; simpa using hmem
    have h := sampleLoop_mem_final p sch dec cond z
      (if cps = [] then [n + 1] else cps) (sampleTimesteps (n + 1)) 0 x hne hmem'
    have htake : List.take (n + 1) (sampleTimesteps (n + 1)) =
        sampleTimesteps (n + 1) :=
      List.take_of_length_le (by omega)
    show (toString (n + 1),
        runChain p sch dec cond z (List.take (n + 1) (sampleTimesteps (n + 1))) 0 x) ∈
      (sampleLoop p sch dec cond z (if cps = [] then [n + 1] else cps)
        (sampleTimesteps (n + 1)) 0 x).1
    rw [htake]
    have hkey : (0 : ℕ) + (sampleTimesteps (n + 1)).length = n + 1 := by omega
    rw [hkey] at h
    exact h

/-- C7 amended, witness: with `n_steps = 2` and checkpoints `[2]` the call
performs 2 decoder evaluations and the mapping contains the final sample. -/
theorem claim_C7_amended_witness :
    sampleDecoderCalls idPrims schQ zeroDecoder none 2 zeroNoise 0 (some 2)
        [2] = 2 ∧
      ("2", chainState idPrims schQ zeroDecoder none zeroNoise 2 2 0) ∈
        sample idPrims schQ zeroDecoder none 2 zeroNoise 0 (some 2) [2] := by
  have h := claim_C7_amended idPrims schQ zeroDecoder none 2 zeroNoise 0 1 [2]
  exact ⟨h.1, h.2.2 (by decide)⟩

/-- C8 counterexample: after a first call on device `0`, a second call on
the different device `1` does NOT rebuild the constants: the stored device
stays `0`, while the claim says the schedule is rebuilt so that its context
matches the input's context `1`. -/
theorem claim_C8_counterexample :
    (ensureSetup 1 (ensureSetup 0 initState)).consts_device = some 0 ∧
      (some 0 : Option Device) ≠ some 1 :=
  ⟨rfl, by decide⟩

/-- C8 amended: the schedule constants are built lazily by the first call,
with that call's compute context, and the `setup_consts` boolean then pins
them for the lifetime of the instance: any sequence of later calls, on any
devices, leaves the state unchanged (the constants are never rebuilt, even
when a later call uses a different context). -/
theorem claim_C8_amended (d : Device) (ds : List Device) :
    ensureSetup d initState = ⟨true, some d⟩ ∧
      List.foldl (fun st dev => ensureSetup dev st)
        (ensureSetup d initState) ds = ⟨true, some d⟩ := by
  have hfirst : ensureSetup d initState = ⟨true, some d⟩ := rfl
  refine ⟨hfirst, ?_⟩
  rw [hfirst]
  have hfix : ∀ (l : List Device) (st : ConstsState), st.setup_consts = true →
      List.foldl (fun st dev => ensureSetup dev st) st l = st := by
    intro l
    induction l with
    | nil => intro st h; rfl
    | cons a l ih =>
      intro st h
      have : ensureSetup a st = st := by rw [ensureSetup, if_pos h]
      rw [List.foldl_cons, this]
      exact ih st h
  exact hfix ds ⟨true, some d⟩ rfl

/-- C9: two runs of `sample` with the same inputs, decoder and checkpoints,
whose noise sequences agree on the indices actually drawn (the first
`n_steps` ones), return identical mappings: the chain is a deterministic
function of its inputs and the noise sequence. -/
theorem claim_C9_determinism (p : Prims α) (sch : Schedule α) (dec : Decoder α)
    (cond : Option α) (T : ℕ) (x : α) (n : ℕ) (cps : List ℕ) (z1 z2 : ℕ → α)
    (h : ∀ i, i < n → z1 i = z2 i) :
    sample p sch dec cond T z1 x (some n) cps =
      sample p sch dec cond T z2 x (some n) cps := by
  have hlen : (sampleTimesteps n).length = n := by simp [sampleTimesteps]
  unfold sample
  exact congrArg Prod.fst (sampleLoop_congr_z p sch dec cond _ z1 z2
    (sampleTimesteps n) 0 x (fun i _ hi => h i (by omega)))

/-- C9 witness: two concrete noise sequences agreeing on indices below 2
give the same 2-step sampling result. -/
theorem claim_C9_determinism_witness :
    sample idPrims schQ zeroDecoder none 2 stepNoise 0 (some 2) [] =
      sample idPrims schQ zeroDecoder none 2 zeroNoise 0 (some 2) [] :=
  claim_C9_determinism idPrims schQ zeroDecoder none 2 0 2 [] stepNoise
    zeroNoise (by intro i hi; simp [stepNoise, zeroNoise, hi])

/-- C5: schedule building selects `(p_variance, p_log_variance)` by variance
type: `"fixedlarge"` yields `(betas, log(cat([post_variance[1]], betas[1:])))`
and `"fixedsmall"` yields
`(post_variance, log(cat([post_variance[1]], post_variance[1:])))`; the
clipped posterior log-variance sequence replaces index 0 with the value at
index 1 (its head is `log(post_variance[1])`). -/
theorem claim_C5_variant_selection (p : Prims α) (b1 b2 : α) {T : ℕ}
    (hT : 2 ≤ T) :
    setup_precomputed_const p b1 b2 T "fixedlarge" =
        .ok (scheduleOf p b1 b2 T "fixedlarge") ∧
      (scheduleOf p b1 b2 T "fixedlarge").p_variance = betasList b1 b2 T ∧
      (scheduleOf p b1 b2 T "fixedlarge").p_log_variance =
        (postVar1 b1 b2 T :: (betasList b1 b2 T).tail).map p.log ∧
      setup_precomputed_const p b1 b2 T "fixedsmall" =
        .ok (scheduleOf p b1 b2 T "fixedsmall") ∧
      (scheduleOf p b1 b2 T "fixedsmall").p_variance =
        postVarianceList b1 b2 T ∧
      (scheduleOf p b1 b2 T "fixedsmall").p_log_variance =
        (postVar1 b1 b2 T :: (postVarianceList b1 b2 T).tail).map p.log ∧
      (scheduleOf p b1 b2 T "fixedsmall").p_log_variance =
        postLogVarianceClippedList p b1 b2 T ∧
      (postLogVarianceClippedList p b1 b2 T).getD 0 0 =
        p.log (postVar1 b1 b2 T) := by
  refine ⟨setup_precomputed_const_ok p b1 b2 hT (Or.inl rfl), ?_, ?_,
    setup_precomputed_const_ok p b1 b2 hT (Or.inr rfl), ?_, ?_, ?_, ?_⟩
  · simp [scheduleOf]
  · simp [scheduleOf, fixedLargeLogVarianceList]
  · simp [scheduleOf]
  · simp [scheduleOf, postLogVarianceClippedList]
  · simp [scheduleOf]
  · simp [postLogVarianceClippedList]

/-- C5 witness: the variant selection at the concrete valid configuration
`beta_1 = 1/10`, `beta_2 = 1/5`, `T = 2`. -/
theorem claim_C5_variant_selection_witness :
    setup_precomputed_const idPrims ((1 : ℚ) / 10) (1 / 5) 2 "fixedlarge" =
        .ok (scheduleOf idPrims ((1 : ℚ) / 10) (1 / 5) 2 "fixedlarge") ∧
      (scheduleOf idPrims ((1 : ℚ) / 10) (1 / 5) 2 "fixedlarge").p_variance =
        betasList ((1 : ℚ) / 10) (1 / 5) 2 := by
  have h := claim_C5_variant_selection idPrims ((1 : ℚ) / 10) (1 / 5)
    (by norm_num : 2 ≤ 2)
  exact ⟨h.1, h.2.1⟩

/-- C6 counterexample: with `beta_1 = 1/5 ≥ beta_2 = 1/10` (an invalid
configuration by the claim) schedule building succeeds silently — no
`ConfigurationError` (or any error) is raised; the source contains no
validation of `beta_1 < beta_2` at all. -/
theorem claim_C6_counterexample :
    ((1 : ℚ) / 10 ≤ (1 : ℚ) / 5) ∧
      setup_precomputed_const idPrims ((1 : ℚ) / 5) (1 / 10) 3 "fixedlarge" =
        .ok (scheduleOf idPrims ((1 : ℚ) / 5) (1 / 10) 3 "fixedlarge") :=
  ⟨by norm_num, setup_precomputed_const_ok idPrims _ _ (by norm_num)
    (Or.inl rfl)⟩

/-- C6 amended: schedule building performs no configuration validation and
raises no `ConfigurationError`: `beta_1 ≥ beta_2` is silently accepted
(building succeeds for any beta values once `T ≥ 2` and the variance type is
recognized); `T = 0` fails with the shape assertion, `T = 1` with the
out-of-range read of `post_variance[1]`; an unrecognized variance type fails
with the dictionary key lookup. -/
theorem claim_C6_amended (p : Prims α) (b1 b2 : α) (vt : String) :
    setup_precomputed_const p b1 b2 0 vt = .error .assertError ∧
      setup_precomputed_const p b1 b2 1 vt = .error .indexError ∧
      (∀ T : ℕ, 2 ≤ T → vt ≠ "fixedlarge" → vt ≠ "fixedsmall" →
        setup_precomputed_const p b1 b2 T vt = .error .keyError) ∧
      (∀ T : ℕ, 2 ≤ T →
        setup_precomputed_const p b1 b2 T "fixedlarge" =
          .ok (scheduleOf p b1 b2 T "fixedlarge")) := by
  refine ⟨setup_precomputed_const_T0 p b1 b2 vt,
    setup_precomputed_const_T1 p b1 b2 vt, ?_, ?_⟩
  · intro T hT hL hS
    exact setup_precomputed_const_keyError p b1 b2 hT (by tauto)
  · intro T hT
    exact setup_precomputed_const_ok p b1 b2 hT (Or.inl rfl)

/-- C6 amended, witness: the three failure modes and the silent acceptance
of `beta_1 = 1/5 ≥ beta_2 = 1/10`, at concrete inputs. -/
theorem claim_C6_amended_witness :
    setup_precomputed_const idPrims ((1 : ℚ) / 10) (1 / 5) 0 "fixedlarge" =
        .error .assertError ∧
      setup_precomputed_const idPrims ((1 : ℚ) / 10) (1 / 5) 1 "fixedlarge" =
        .error .indexError ∧
      setup_precomputed_const idPrims ((1 : ℚ) / 10) (1 / 5) 2 "bogus" =
        .error .keyError ∧
      setup_precomputed_const idPrims ((1 : ℚ) / 5) (1 / 10) 2 "fixedlarge" =
        .ok (scheduleOf idPrims ((1 : ℚ) / 5) (1 / 10) 2 "fixedlarge") := by
  refine ⟨(claim_C6_amended idPrims ((1 : ℚ) / 10) (1 / 5) "fixedlarge").1,
    (claim_C6_amended idPrims ((1 : ℚ) / 10) (1 / 5) "fixedlarge").2.1,
    (claim_C6_amended idPrims ((1 : ℚ) / 10) (1 / 5) "bogus").2.2.1 2
      (by norm_num) (by decide) (by decide),
    (claim_C6_amended idPrims ((1 : ℚ) / 5) (1 / 10) "fixedlarge").2.2.2 2
      (by norm_num)⟩

/-- C4 counterexample: at the valid hyperparameters `beta_1 = 1/10 <
beta_2 = 1/5 < 1` and `T = 1 ≥ 1` no schedule is built at all: the build
fails with the out-of-range read of `post_variance[1]` (line 56), so the
claimed invariants of "the built schedule" cannot hold for `T = 1`. -/
theorem claim_C4_counterexample :
    (0 < (1 : ℚ) / 10 ∧ (1 : ℚ) / 10 < 1 / 5 ∧ (1 : ℚ) / 5 < 1 ∧
        (1 : ℕ) ≥ 1) ∧
      setup_precomputed_const idPrims ((1 : ℚ) / 10) (1 / 5) 1 "fixedlarge" =
        .error .indexError :=
  ⟨by norm_num, setup_precomputed_const_T1 idPrims _ _ _⟩

/-- C4 amended: for valid hyperparameters with `T ≥ 2` (for `T = 1` the
build fails, see the counterexample) and a recognized variance type, the
build succeeds and the resulting schedule satisfies the invariants: every
derived sequence has length exactly `T`; `alpha_bar_shifted[0] = 1`;
`alpha_bar` is monotonically non-increasing with every element in `(0, 1]`;
`betas` is strictly increasing with every element in `(0, 1)`. -/
theorem claim_C4_amended (p : Prims α) {b1 b2 : α} {T : ℕ} {vt : String}
    (h1 : 0 < b1) (h2 : b1 < b2) (h3 : b2 < 1) (hT : 2 ≤ T)
    (hvt : vt = "fixedlarge" ∨ vt = "fixedsmall") :
    setup_precomputed_const p b1 b2 T vt = .ok (scheduleOf p b1 b2 T vt) ∧
      ((scheduleOf p b1 b2 T vt).betas.length = T ∧
        (scheduleOf p b1 b2 T vt).alphas.length = T ∧
        (scheduleOf p b1 b2 T vt).alpha_bar.length = T ∧
        (scheduleOf p b1 b2 T vt).alpha_bar_shifted.length = T ∧
        (scheduleOf p b1 b2 T vt).sqrt_alpha_bar.length = T ∧
        (scheduleOf p b1 b2 T vt).minus_sqrt_alpha_bar.length = T ∧
        (scheduleOf p b1 b2 T vt).sqrt_recip_alphas_cumprod.length = T ∧
        (scheduleOf p b1 b2 T vt).sqrt_recipm1_alphas_cumprod.length = T ∧
        (scheduleOf p b1 b2 T vt).post_variance.length = T ∧
        (scheduleOf p b1 b2 T vt).post_log_variance_clipped.length = T ∧
        (scheduleOf p b1 b2 T vt).p_variance.length = T ∧
        (scheduleOf p b1 b2 T vt).p_log_variance.length = T ∧
        (scheduleOf p b1 b2 T vt).post_coeff_1.length = T ∧
        (scheduleOf p b1 b2 T vt).post_coeff_2.length = T) ∧
      (scheduleOf p b1 b2 T vt).alpha_bar_shifted.getD 0 0 = 1 ∧
      (∀ i j : ℕ, i ≤ j → j < T →
        0 < (scheduleOf p b1 b2 T vt).alpha_bar.getD j 0 ∧
        (scheduleOf p b1 b2 T vt).alpha_bar.getD j 0 ≤
          (scheduleOf p b1 b2 T vt).alpha_bar.getD i 0 ∧
        (scheduleOf p b1 b2 T vt).alpha_bar.getD i 0 ≤ 1) ∧
      (∀ i : ℕ, i < T →
        0 < (scheduleOf p b1 b2 T vt).betas.getD i 0 ∧
        (scheduleOf p b1 b2 T vt).betas.getD i 0 < 1) ∧
      (∀ i j : ℕ, i < j → j < T →
        (scheduleOf p b1 b2 T vt).betas.getD i 0 <
          (scheduleOf p b1 b2 T vt).betas.getD j 0) := by
  have hT1 : 1 ≤ T := by omega
  have hpov : (postVarianceList b1 b2 T).length = T :=
    postVarianceList_length b1 b2 hT1
  have hshift : (alphaBarShiftedList b1 b2 T).length = T :=
    alphaBarShiftedList_length_of_pos b1 b2 hT1
  refine ⟨setup_precomputed_const_ok p b1 b2 hT hvt,
    ⟨?_, ?_, ?_, ?_, ?_, ?_, ?_, ?_, ?_, ?_, ?_, ?_, ?_, ?_⟩, ?_, ?_, ?_, ?_⟩
  · exact betasList_length b1 b2 T
  · exact alphasList_length b1 b2 T
  · exact alphaBarList_length b1 b2 T
  · exact hshift
  · simp [scheduleOf, sqrtAlphaBarList, alphaBarList_length]
  · simp [scheduleOf, minusSqrtAlphaBarList, alphaBarList_length]
  · simp [scheduleOf, sqrtRecipAlphasCumprodList, alphaBarList_length]
  · simp [scheduleOf, sqrtRecipM1AlphasCumprodList, alphaBarList_length]
  · exact hpov
  · show (postLogVarianceClippedList p b1 b2 T).length = T
    simp [postLogVarianceClippedList, hpov]
    omega
  · rcases hvt with rfl | rfl
    · show (betasList b1 b2 T).length = T
      exact betasList_length b1 b2 T
    · show (if ("fixedsmall" : String) = "fixedlarge" then betasList b1 b2 T
        else postVarianceList b1 b2 T).length = T
      rw [if_neg (by decide)]
      exact hpov
  · rcases hvt with rfl | rfl
    · show (fixedLargeLogVarianceList p b1 b2 T).length = T
      simp [fixedLargeLogVarianceList, betasList_length]
      omega
    · show (if ("fixedsmall" : String) = "fixedlarge" then
        fixedLargeLogVarianceList p b1 b2 T
        else postLogVarianceClippedList p b1 b2 T).length = T
      rw [if_neg (by decide)]
      simp [postLogVarianceClippedList, hpov]
      omega
  · show (postCoeff1List p b1 b2 T).length = T
    simp [postCoeff1List, betasList_length, alphaBarList_length, hshift]
  · show (postCoeff2List p b1 b2 T).length = T
    simp [postCoeff2List, alphasList_length, alphaBarList_length, hshift]
  · show (alphaBarShiftedList b1 b2 T).getD 0 0 = 1
    simp [alphaBarShiftedList]
  · intro i j hij hj
    have hj' : j < (alphaBarList b1 b2 T).length := by
      rw [alphaBarList_length]; omega
    have hi' : i < (alphaBarList b1 b2 T).length := by
      rw [alphaBarList_length]; omega
    show 0 < (alphaBarList b1 b2 T).getD j 0 ∧
      (alphaBarList b1 b2 T).getD j 0 ≤ (alphaBarList b1 b2 T).getD i 0 ∧
      (alphaBarList b1 b2 T).getD i 0 ≤ 1
    rw [List.getD_eq_getElem _ _ hj', List.getD_eq_getElem _ _ hi']
    exact ⟨(alphaBarList_getElem_bounds h1 h2.le h3 j hj').1,
      alphaBarList_antitone h1 h2.le h3 hij hj' hi',
      (alphaBarList_getElem_bounds h1 h2.le h3 i hi').2⟩
  · intro i hi
    have hi' : i < (betasList b1 b2 T).length := by
      rw [betasList_length]; exact hi
    show 0 < (betasList b1 b2 T).getD i 0 ∧ (betasList b1 b2 T).getD i 0 < 1
    rw [List.getD_eq_getElem _ _ hi']
    have hb := betasList_getElem_bounds h1 h2.le i hi hi'
    exact ⟨lt_of_lt_of_le h1 hb.1, lt_of_le_of_lt hb.2 h3⟩
  · intro i j hij hj
    have hj' : j < (betasList b1 b2 T).length := by
      rw [betasList_length]; omega
    have hi' : i < (betasList b1 b2 T).length := by
      rw [betasList_length]; omega
    show (betasList b1 b2 T).getD i 0 < (betasList b1 b2 T).getD j 0
    rw [List.getD_eq_getElem _ _ hj', List.getD_eq_getElem _ _ hi']
    exact betasList_strictMono h2 hT hij hj' hi'

/-- C4 amended, witness: the build succeeds at the concrete valid
configuration `beta_1 = 1/10 < beta_2 = 1/5 < 1`, `T = 2`. -/
theorem claim_C4_amended_witness :
    (0 < (1 : ℚ) / 10 ∧ (1 : ℚ) / 10 < 1 / 5 ∧ (1 : ℚ) / 5 < 1 ∧
        2 ≤ (2 : ℕ)) ∧
      setup_precomputed_const idPrims ((1 : ℚ) / 10) (1 / 5) 2 "fixedlarge" =
        .ok (scheduleOf idPrims ((1 : ℚ) / 10) (1 / 5) 2 "fixedlarge") :=
  ⟨by norm_num, (claim_C4_amended idPrims (by norm_num) (by norm_num)
    (by norm_num) (by norm_num) (Or.inl rfl)).1⟩

/-- C1: for every sample `x`, noise `eps` and timestep `t < T`, with valid
hyperparameters and exact real arithmetic, `_predict_xstart_from_eps`
applied to the output of `compute_noisy_input` with the same `t` and `eps`
returns `x` exactly (round-trip identity; no clamping in this direction). -/
theorem claim_C1_round_trip {b1 b2 : ℝ} {T : ℕ} (vt : String) (x eps : ℝ)
    {t : ℕ} (h1 : 0 < b1) (h2 : b1 ≤ b2) (h3 : b2 < 1) (ht : t < T) :
    predict_xstart_from_eps
        (scheduleOf ⟨Real.sqrt, Real.log, Real.exp⟩ b1 b2 T vt)
        (compute_noisy_input
          (scheduleOf ⟨Real.sqrt, Real.log, Real.exp⟩ b1 b2 T vt) x eps t)
        t eps = x := by
  have hlen : t < (alphaBarList b1 b2 T).length := by
    rw [alphaBarList_length]; exact ht
  have hb := alphaBarList_getElem_bounds h1 h2 h3 t hlen
  set a : ℝ := (alphaBarList b1 b2 T)[t] with ha
  have e1 : extract ((alphaBarList b1 b2 T).map Real.sqrt) t = Real.sqrt a :=
    extract_map _ _ t hlen
  have e2 : extract ((alphaBarList b1 b2 T).map
      (fun v => Real.sqrt (1 - v))) t = Real.sqrt (1 - a) :=
    extract_map _ _ t hlen
  have e3 : extract ((alphaBarList b1 b2 T).map
      (fun v => Real.sqrt (1 / v))) t = Real.sqrt (1 / a) :=
    extract_map _ _ t hlen
  have e4 : extract ((alphaBarList b1 b2 T).map
      (fun v => Real.sqrt (1 / v - 1))) t = Real.sqrt (1 / a - 1) :=
    extract_map _ _ t hlen
  show extract ((alphaBarList b1 b2 T).map (fun v => Real.sqrt (1 / v))) t *
      (x * extract ((alphaBarList b1 b2 T).map Real.sqrt) t +
        eps * extract ((alphaBarList b1 b2 T).map
          (fun v => Real.sqrt (1 - v))) t) -
      extract ((alphaBarList b1 b2 T).map
        (fun v => Real.sqrt (1 / v - 1))) t * eps = x
  rw [e1, e2, e3, e4]
  have ha0 : 0 < a := hb.1
  have r1 : Real.sqrt (1 / a) * Real.sqrt a = 1 := by
    rw [one_div, Real.sqrt_inv]
    exact inv_mul_cancel₀ (Real.sqrt_ne_zero'.mpr ha0)
  have r2 : Real.sqrt (1 / a) * Real.sqrt (1 - a) = Real.sqrt (1 / a - 1) := by
    rw [← Real.sqrt_mul (by positivity : (0 : ℝ) ≤ 1 / a)]
    congr 1
    field_simp
  linear_combination x * r1 + eps * r2

/-- C1 witness: the round trip at `beta_1 = 1/10`, `beta_2 = 1/5`, `T = 2`,
`t = 0`, `x = 37`, `eps = 5`. -/
theorem claim_C1_round_trip_witness :
    (0 < (1 : ℝ) / 10 ∧ (1 : ℝ) / 10 ≤ 1 / 5 ∧ (1 : ℝ) / 5 < 1 ∧
        (0 : ℕ) < 2) ∧
      predict_xstart_from_eps
          (scheduleOf ⟨Real.sqrt, Real.log, Real.exp⟩ ((1 : ℝ) / 10) (1 / 5)
            2 "fixedlarge")
          (compute_noisy_input
            (scheduleOf ⟨Real.sqrt, Real.log, Real.exp⟩ ((1 : ℝ) / 10) (1 / 5)
              2 "fixedlarge") 37 5 0)
          0 5 = 37 :=
  ⟨by norm_num, claim_C1_round_trip "fixedlarge" 37 5 (by norm_num)
    (by norm_num) (by norm_num) (by norm_num)⟩

end DDPMSpec
